import Mathlib

/-!
Verification of the `swf_to_pdf` batch conversion pipeline.

This file gives a shallow embedding of `swf_to_pdf.py` and proves (or refutes)
the specified properties of its two-stage pipeline: file discovery and sorting,
SVG/SWF rasterization with alpha flattening, PDF page composition, and the
mode-dispatch controller.
-/

/- ## Filename stems and suffixes (`pathlib.PurePath.stem` / `.suffix`)

`pathlib` computes `i = name.rfind('.')`; when `0 < i < len(name) - 1` the
suffix is `name[i:]` and the stem is `name[:i]`, otherwise the suffix is empty
and the stem is the whole name. -/

/-- Character test used throughout: `c` is not the extension separator. -/
def notDot (c : Char) : Bool := c ≠ '.'

/-- Index of the last extension separator of a file name, as in `pathlib`:
the position `i` of the last dot when `0 < i < l.length - 1`, and `l.length`
(meaning "no suffix") otherwise. -/
def splitIdx (l : List Char) : Nat :=
  let ext := l.reverse.takeWhile notDot
  if ext.length ≠ 0 ∧ ext.length + 1 < l.length then l.length - ext.length - 1
  else l.length

/-- The `pathlib` stem of a file name, on character lists. -/
def stemList (l : List Char) : List Char := l.take (splitIdx l)

/-- The `pathlib` suffix of a file name, on character lists. -/
def suffixList (l : List Char) : List Char := l.drop (splitIdx l)

/-- The `pathlib` stem of a file name. -/
def stemStr (s : String) : String := String.mk (stemList s.data)

/-- The `pathlib` suffix of a file name (`".svg"` for `"a.svg"`, `""` if none). -/
def suffixStr (s : String) : String := String.mk (suffixList s.data)

/- ## `path_sorter` and the stable sort used by both stages -/

/-- Comparator `path_sorter(a, b)` from the source: compares stem lengths
first, then the stems lexicographically; returns -1, 0 or 1. Comparisons are
on the character lists of the stems, which is exactly the order of `String`
(`String.instLT` is `fun a b => a.data < b.data`). -/
def path_sorter (a b : String) : Int :=
  if (stemList a.data).length < (stemList b.data).length then -1
  else if (stemList b.data).length < (stemList a.data).length then 1
  else if stemList a.data < stemList b.data then -1
  else if stemList b.data < stemList a.data then 1
  else 0

/-- Boolean "less or equal" induced by the comparator, as used by
`sort(key=cmp_to_key(path_sorter))`. -/
def pathLeB (a b : String) : Bool := decide (path_sorter a b ≤ 0)

/-- Stable insertion of `x` into a sorted list under a boolean comparator. -/
def orderedInsertB (le : α → α → Bool) (x : α) : List α → List α
  | [] => [x]
  | y :: ys => if le x y then x :: y :: ys else y :: orderedInsertB le x ys

/-- Stable insertion sort; models the stable Python `list.sort` run with a
comparator that is a total preorder. -/
def insertionSortB (le : α → α → Bool) : List α → List α
  | [] => []
  | x :: xs => orderedInsertB le x (insertionSortB le xs)

/-- The sort both stages apply to the collected paths: stable sort under
`path_sorter` on the file name (`paths.sort(key=cmp_to_key(path_sorter))`). -/
def sortByName (f : α → String) (l : List α) : List α :=
  insertionSortB (fun x y => pathLeB (f x) (f y)) l

/-- Sorting a plain list of file names. -/
def sortPaths (l : List String) : List String := sortByName id l

/- ## PIL model: `Image.paste` blending and `convert_transparency_to_color` -/

/-- PIL `MULDIV255`: approximate division by 255 used by `Image.paste`
compositing, `((a*b + 128) >> 8 + (a*b + 128)) >> 8`. -/
def muldiv255 (a b : Nat) : Nat :=
  let t := a * b + 128
  (t / 256 + t) / 256

/-- PIL `BLEND` for a single channel value: composite `img` over `bg` with
8-bit mask value `mask`. -/
def blend (mask bg img : Nat) : Nat :=
  muldiv255 bg (255 - mask) + muldiv255 img mask

/-- A decoded PIL image: pixel size plus one flat list of 8-bit values per
band (`RGBA` has four bands, `RGB` three). -/
structure PILImage where
  width : Nat
  height : Nat
  bands : List (List Nat)
deriving DecidableEq

/-- Flattening, `convert_transparency_to_color` from the source: build a new `RGB` image
filled with `background_color`, then paste the decoded image over it using
`png_file.split()[3]` (the fourth band) as the mask; indexing a missing fourth
band raises, modelled as an error. -/
def convert_transparency_to_color (png_file : PILImage)
    (background_color : Nat × Nat × Nat) : Except String PILImage :=
  match png_file.bands[3]? with
  | none => Except.error "tuple index out of range"
  | some alpha =>
    let bgs := [background_color.1, background_color.2.1, background_color.2.2]
    Except.ok ⟨png_file.width, png_file.height,
      (bgs.zip (png_file.bands.take 3)).map
        (fun p => (alpha.zip p.2).map (fun q => blend q.1 p.1 q.2))⟩

/- ## Stage 1: `raw_to_images` -/

/-- One candidate file in the working directory, together with what the
external renderer would do with it: `svgRender` is the outcome of
`cairosvg.svg2png` (`none` = exception raised), `swfExit` the exit status of
`swfrender`. -/
structure SourceItem where
  name : String
  svgRender : Option PILImage
  swfExit : Int
deriving DecidableEq

/-- Output file name of one conversion: `str(path)[:-3] + image_suffix`. -/
def outputName (name : String) (image_suffix : String) : String :=
  String.mk (name.data.take (name.data.length - 3)) ++ image_suffix

/-- Stage-1 collector: files whose suffix is `"." + source_suffix`, sorted by
`path_sorter`. -/
def collectSources (source_suffix : String) (files : List SourceItem) :
    List SourceItem :=
  sortByName SourceItem.name
    (files.filter (fun f => suffixStr f.name = "." ++ source_suffix))

/-- One iteration of the stage-1 loop body: the artifacts written for this
item and whether `result == 0` afterwards. In the `svg` branch a rendering or
flattening exception yields `result = 1`; in the `swf` branch the exit status
decides; any other source suffix takes neither branch and `result` stays 0. -/
def convertItem (source_suffix image_suffix : String)
    (background_color : Nat × Nat × Nat) (it : SourceItem) :
    List String × Bool :=
  if source_suffix = "svg" then
    match it.svgRender with
    | none => ([], false)
    | some img =>
      match convert_transparency_to_color img background_color with
      | Except.error _ => ([], false)
      | Except.ok _ => ([outputName it.name image_suffix], true)
  else if source_suffix = "swf" then
    if it.swfExit = 0 then ([outputName it.name image_suffix], true)
    else ([], false)
  else ([], true)

/-- One progress line of the batch: total count, 1-based position, derived
output name, and whether the item succeeded (`result == 0`). -/
structure LogLine where
  total : Nat
  pos : Nat
  outName : String
  success : Bool
deriving DecidableEq

/-- The stage-1 loop over the sorted paths, threading the 1-based counter;
returns the artifacts written and the progress lines, in order. -/
def runBatch (source_suffix image_suffix : String)
    (background_color : Nat × Nat × Nat) (total : Nat) :
    Nat → List SourceItem → List String × List LogLine
  | _, [] => ([], [])
  | counter, it :: rest =>
    let r := convertItem source_suffix image_suffix background_color it
    let r' := runBatch source_suffix image_suffix background_color total
      (counter + 1) rest
    (r.1 ++ r'.1,
      ⟨total, counter, outputName it.name image_suffix, r.2⟩ :: r'.2)

/-- Stage 1, `raw_to_images` from the source: collect and sort the matching files; if
none, print the "no files" notice and stop; otherwise run the loop. Result:
(artifacts written, progress lines, notices). -/
def raw_to_images (image_suffix source_suffix : String)
    (background_color : Nat × Nat × Nat) (files : List SourceItem) :
    List String × List LogLine × List String :=
  let paths := collectSources source_suffix files
  if paths.length ≠ 0 then
    let r := runBatch source_suffix image_suffix background_color
      paths.length 1 paths
    (r.1, r.2, [])
  else ([], [], ["No " ++ source_suffix ++ " files were found."])

/- ## Stage 2: `images_to_pdf` and `pdf_export_to_disk` -/

/-- A raster file in the working directory together with its pixel size. -/
structure ImageFile where
  name : String
  pixelW : Nat
  pixelH : Nat
deriving DecidableEq

/-- One generated page: physical page size in points (from the document
format), the image placed on it, the placement coordinates, and the drawn
size in points. `fpdf.image(name, 0, 0)` with no width/height draws the image
at its native pixel size, one point per pixel under `unit="pt"`. -/
structure Page where
  pageW : Int
  pageH : Int
  img : ImageFile
  posX : Nat
  posY : Nat
  drawW : Nat
  drawH : Nat
deriving DecidableEq

/-- The generated document: the `FPDF(unit="pt", format=[x, y])` page format
and the pages added to it. -/
structure Pdf where
  formatW : Int
  formatH : Int
  pages : List Page
deriving DecidableEq

/-- Stage-2 collector: files whose suffix is `"." + image_suffix`, sorted by
`path_sorter`. -/
def collectImages (image_suffix : String) (files : List ImageFile) :
    List ImageFile :=
  sortByName ImageFile.name
    (files.filter (fun f => suffixStr f.name = "." ++ image_suffix))

/-- Stage 2, `images_to_pdf` from the source: collect and sort the images; if none,
print the "no images" notice and return a null document; otherwise create an
`FPDF(unit="pt", format=[int(x_size), int(y_size)])` and, per image, add one
page (of that fixed format) and place the image at (0, 0). -/
def images_to_pdf (image_suffix : String) (x_size y_size : Int)
    (files : List ImageFile) : Option Pdf × List String :=
  let imagepaths := collectImages image_suffix files
  if imagepaths.length ≠ 0 then
    (some ⟨x_size, y_size,
      imagepaths.map (fun im => ⟨x_size, y_size, im, 0, 0, im.pixelW, im.pixelH⟩)⟩,
      [])
  else (none, ["No images were found."])

/-- Export, `pdf_export_to_disk` from the source: write the document (named after the
last component of the working directory) when it is non-null, else do
nothing. Result: the list of (file name, document) writes performed. -/
def pdf_export_to_disk (pdf : Option Pdf) (cwdName : String) :
    List (String × Pdf) :=
  match pdf with
  | some p => [(cwdName ++ ".pdf", p)]
  | none => []

/- ## Pipeline controller: `process_with_args` -/

/-- The three pipeline steps whose execution order the controller decides.
`exportPdf` stands for the disk write inside `pdf_export_to_disk`, which
happens exactly when the document is non-null. -/
inductive PipelineStep
  | genImages
  | buildPdf
  | exportPdf
deriving DecidableEq

/-- Python truthiness of `args.mode`: `None` and `0` are falsy. -/
def modeTruthy : Option Int → Bool
  | none => false
  | some m => m != 0

/-- The dispatch of `process_with_args` on `args.mode`: `if args.mode:` then
the `== 1` / `== 2` / `== 3` chain with a final silent `pass`; on a falsy
mode, the `else` branch runs both stages. `pdfNonNull` abstracts whether
`images_to_pdf` returned a document, which decides whether the export write
occurs. -/
def process_with_args_trace (mode : Option Int) (pdfNonNull : Bool) :
    List PipelineStep :=
  let exportT := if pdfNonNull then [PipelineStep.exportPdf] else []
  if modeTruthy mode then
    if mode = some 1 then [PipelineStep.genImages]
    else if mode = some 2 then PipelineStep.buildPdf :: exportT
    else if mode = some 3 then
      PipelineStep.genImages :: PipelineStep.buildPdf :: exportT
    else []
  else PipelineStep.genImages :: PipelineStep.buildPdf :: exportT

/-- Python's `str.split(sep)` for a single-character separator `'.'`, on
character lists: `"".split(".") == [""]`, `"a.b".split(".") == ["a","b"]`. -/
def splitOnDot : List Char → List (List Char)
  | [] => [[]]
  | c :: cs =>
    if c = '.' then [] :: splitOnDot cs
    else
      match splitOnDot cs with
      | [] => [[c]]
      | p :: ps => (c :: p) :: ps

/-- Resolution of the background color in `process_with_args`: a supplied
(truthy, i.e. non-empty) `--background_color` is split on `"."` into a tuple
of strings; otherwise the integer default is used. The sum type records
which of the two shapes the flattening step receives. -/
def resolveBackgroundColor (arg : Option String) (dflt : Nat × Nat × Nat) :
    List String ⊕ (Nat × Nat × Nat) :=
  match arg with
  | some s =>
    if s ≠ "" then Sum.inl ((splitOnDot s.data).map String.mk)
    else Sum.inr dflt
  | none => Sum.inr dflt

/- ## Order properties of `path_sorter` and the stable sort -/

/-- The ordering policy the comparator implements, phrased on the stems:
shorter stem first, equal-length stems compared lexicographically. -/
def stemOrder (a b : String) : Prop :=
  (stemStr a).length < (stemStr b).length ∨
  ((stemStr a).length = (stemStr b).length ∧ stemStr a ≤ stemStr b)

theorem stemStr_length_eq (a : String) :
    (stemStr a).length = (stemList a.data).length := rfl

theorem stemStr_le_iff (a b : String) :
    stemStr a ≤ stemStr b ↔ ¬ stemList b.data < stemList a.data := by
  constructor
  · intro h hlt
    exact absurd (String.lt_iff_toList_lt.mpr hlt) (not_lt.mpr h)
  · intro h
    exact not_lt.mp (fun hlt => h (String.lt_iff_toList_lt.mp hlt))

theorem pathLeB_iff (a b : String) : pathLeB a b = true ↔ stemOrder a b := by
  unfold pathLeB path_sorter stemOrder
  rw [decide_eq_true_eq, stemStr_length_eq, stemStr_length_eq, stemStr_le_iff]
  split_ifs with h1 h2 h3 h4
  · simp only [iff_true_intro (by norm_num : (-1 : Int) ≤ 0), true_iff]
    exact Or.inl h1
  · constructor
    · intro h; exact absurd h (by norm_num)
    · rintro (h | ⟨e, -⟩) <;> omega
  · simp only [iff_true_intro (by norm_num : (-1 : Int) ≤ 0), true_iff]
    exact Or.inr ⟨by omega, fun h => absurd h3 (asymm h)⟩
  · constructor
    · intro h; exact absurd h (by norm_num)
    · rintro (h | ⟨-, hle⟩)
      · omega
      · exact absurd h4 hle
  · simp only [iff_true_intro (le_refl (0 : Int)), true_iff]
    exact Or.inr ⟨by omega, h4⟩

theorem stemOrder_total (a b : String) : stemOrder a b ∨ stemOrder b a := by
  unfold stemOrder
  rcases Nat.lt_trichotomy (stemStr a).length (stemStr b).length with h | h | h
  · exact Or.inl (Or.inl h)
  · rcases le_total (stemStr a) (stemStr b) with h' | h'
    · exact Or.inl (Or.inr ⟨h, h'⟩)
    · exact Or.inr (Or.inr ⟨h.symm, h'⟩)
  · exact Or.inr (Or.inl h)

theorem stemOrder_trans (a b c : String) :
    stemOrder a b → stemOrder b c → stemOrder a c := by
  intro h1 h2
  unfold stemOrder at h1 h2 ⊢
  rcases h1 with h1 | ⟨e1, l1⟩ <;> rcases h2 with h2 | ⟨e2, l2⟩
  · exact Or.inl (by omega)
  · exact Or.inl (by omega)
  · exact Or.inl (by omega)
  · exact Or.inr ⟨e1.trans e2, le_trans l1 l2⟩

theorem mem_orderedInsertB (le : α → α → Bool) (x : α) (l : List α) (z : α) :
    z ∈ orderedInsertB le x l ↔ z = x ∨ z ∈ l := by
  induction l with
  | nil => simp [orderedInsertB]
  | cons y ys ih =>
    by_cases h : le x y = true
    · simp [orderedInsertB, h]
    · simp only [orderedInsertB, if_neg h, List.mem_cons, ih]
      tauto

theorem perm_orderedInsertB (le : α → α → Bool) (x : α) (l : List α) :
    List.Perm (orderedInsertB le x l) (x :: l) := by
  induction l with
  | nil => simp [orderedInsertB]
  | cons y ys ih =>
    by_cases h : le x y = true
    · simp [orderedInsertB, h]
    · rw [orderedInsertB, if_neg h]
      exact (ih.cons y).trans (List.Perm.swap x y ys)

theorem perm_insertionSortB (le : α → α → Bool) (l : List α) :
    List.Perm (insertionSortB le l) l := by
  induction l with
  | nil => simp [insertionSortB]
  | cons x xs ih =>
    exact (perm_orderedInsertB le x (insertionSortB le xs)).trans (ih.cons x)

theorem pairwise_orderedInsertB (le : α → α → Bool)
    (htot : ∀ a b, le a b = true ∨ le b a = true)
    (htrans : ∀ a b c, le a b = true → le b c = true → le a c = true)
    (x : α) (l : List α) (hl : l.Pairwise (fun a b => le a b = true)) :
    (orderedInsertB le x l).Pairwise (fun a b => le a b = true) := by
  induction l with
  | nil => simp [orderedInsertB]
  | cons y ys ih =>
    rcases List.pairwise_cons.mp hl with ⟨hy, hys⟩
    by_cases h : le x y = true
    · rw [orderedInsertB, if_pos h]
      refine List.Pairwise.cons ?_ hl
      intro z hz
      rcases List.mem_cons.mp hz with rfl | hz
      · exact h
      · exact htrans _ _ _ h (hy z hz)
    · rw [orderedInsertB, if_neg h]
      refine List.Pairwise.cons ?_ (ih hys)
      intro z hz
      rcases (mem_orderedInsertB le x ys z).mp hz with hzx | hz
      · rw [hzx]
        rcases htot x y with h' | h'
        · exact absurd h' h
        · exact h'
      · exact hy z hz

theorem pairwise_insertionSortB (le : α → α → Bool)
    (htot : ∀ a b, le a b = true ∨ le b a = true)
    (htrans : ∀ a b c, le a b = true → le b c = true → le a c = true)
    (l : List α) :
    (insertionSortB le l).Pairwise (fun a b => le a b = true) := by
  induction l with
  | nil => simp [insertionSortB]
  | cons x xs ih => exact pairwise_orderedInsertB le htot htrans x _ ih

theorem pairwise_sortByName (f : α → String) (l : List α) :
    (sortByName f l).Pairwise (fun x y => stemOrder (f x) (f y)) := by
  have h := pairwise_insertionSortB (fun x y => pathLeB (f x) (f y))
    (fun a b => by
      rcases stemOrder_total (f a) (f b) with h | h
      · exact Or.inl ((pathLeB_iff _ _).mpr h)
      · exact Or.inr ((pathLeB_iff _ _).mpr h))
    (fun a b c hab hbc => (pathLeB_iff _ _).mpr
      (stemOrder_trans _ _ _ ((pathLeB_iff _ _).mp hab) ((pathLeB_iff _ _).mp hbc)))
    l
  exact h.imp (fun hz => (pathLeB_iff _ _).mp hz)

/-- C1: both stages sort the discovered paths with the length-then-lexicographic
comparator on the filename stem: the sorted sequence is a permutation of the
input in which a shorter stem never follows a longer one and equal-length
stems appear in lexicographic order; on stems `f1, f2, f10, f20` the sorted
order is `f1, f2, f10, f20`. -/
theorem c1_sort_order :
    (∀ (α : Type) (f : α → String) (l : List α),
      List.Perm (sortByName f l) l ∧
      (sortByName f l).Pairwise (fun x y => stemOrder (f x) (f y))) ∧
    sortPaths ["f10.png", "f2.png", "f20.png", "f1.png"] =
      ["f1.png", "f2.png", "f10.png", "f20.png"] := by
  refine ⟨fun α f l => ⟨perm_insertionSortB _ l, pairwise_sortByName f l⟩, by decide⟩

/- ## Structure of stems and suffixes -/

theorem takeWhile_notDot_append (a b : List Char)
    (ha : ∀ c ∈ a, notDot c = true) :
    (a ++ '.' :: b).takeWhile notDot = a ∧
    (a ++ '.' :: b).dropWhile notDot = '.' :: b := by
  induction a with
  | nil => constructor <;> simp [List.takeWhile_cons, List.dropWhile_cons, notDot]
  | cons c cs ih =>
    have hc : notDot c = true := ha c (by simp)
    have ih' := ih (fun d hd => ha d (by simp [hd]))
    constructor
    · simp [List.takeWhile_cons, hc, ih'.1]
    · simp [List.dropWhile_cons, hc, ih'.2]

theorem dropWhile_head_not (p : α → Bool) (l : List α) (x : α) (xs : List α)
    (h : l.dropWhile p = x :: xs) : p x = false := by
  induction l with
  | nil => simp [List.dropWhile] at h
  | cons c cs ih =>
    rw [List.dropWhile_cons] at h
    by_cases hc : p c = true
    · rw [if_pos hc] at h
      exact ih h
    · rw [if_neg hc] at h
      cases h
      exact Bool.eq_false_iff.mpr hc

theorem splitIdx_append (s suf : List Char) (hs : s ≠ []) (hsuf : suf ≠ [])
    (hdot : ∀ c ∈ suf, notDot c = true) :
    splitIdx (s ++ '.' :: suf) = s.length := by
  have hrev : (s ++ '.' :: suf).reverse = suf.reverse ++ '.' :: s.reverse := by
    simp
  have htw := takeWhile_notDot_append suf.reverse s.reverse
    (fun c hc => hdot c (List.mem_reverse.mp hc))
  unfold splitIdx
  rw [hrev, htw.1]
  have h1 : suf.reverse.length = suf.length := List.length_reverse suf
  have h2 : (s ++ '.' :: suf).length = s.length + suf.length + 1 := by
    simp; omega
  have hsl : s.length ≠ 0 := fun h => hs (List.length_eq_zero.mp h)
  have hel : suf.length ≠ 0 := fun h => hsuf (List.length_eq_zero.mp h)
  rw [if_pos ⟨by omega, by omega⟩]
  omega

/-- On a well-formed file name `stem ++ "." ++ suffix` (nonempty stem, a
nonempty extension free of dots), `pathlib` recovers exactly the two parts. -/
theorem stem_suffix_append (s suf : List Char) (hs : s ≠ []) (hsuf : suf ≠ [])
    (hdot : ∀ c ∈ suf, notDot c = true) :
    stemList (s ++ '.' :: suf) = s ∧ suffixList (s ++ '.' :: suf) = '.' :: suf := by
  unfold stemList suffixList
  rw [splitIdx_append s suf hs hsuf hdot]
  exact ⟨List.take_left s ('.' :: suf), List.drop_left s ('.' :: suf)⟩

/-- Whenever `pathlib` reports a nonempty suffix `"." ++ e`, the name splits
as `stem ++ "." ++ e` with a nonempty stem and a dot-free nonempty `e`. -/
theorem suffix_structure (l e : List Char) (h : suffixList l = '.' :: e) :
    stemList l ++ '.' :: e = l ∧ stemList l ≠ [] ∧
    (∀ c ∈ e, notDot c = true) ∧ e ≠ [] := by
  have hsplit : stemList l ++ suffixList l = l := List.take_append_drop _ l
  have hne : splitIdx l ≠ l.length := by
    intro hidx
    have : suffixList l = [] := by
      unfold suffixList
      rw [hidx, List.drop_length]
    rw [h] at this
    exact List.cons_ne_nil _ _ this
  have hcond : (l.reverse.takeWhile notDot).length ≠ 0 ∧
      (l.reverse.takeWhile notDot).length + 1 < l.length := by
    by_contra hc
    exact hne (by unfold splitIdx; rw [if_neg hc])
  have hidx : splitIdx l = l.length - (l.reverse.takeWhile notDot).length - 1 := by
    unfold splitIdx
    rw [if_pos hcond]
  set ext := l.reverse.takeWhile notDot with hext
  set rest := l.reverse.dropWhile notDot with hrest
  obtain ⟨hc1, hc2⟩ := hcond
  have hdecomp : ext ++ rest = l.reverse :=
    List.takeWhile_append_dropWhile notDot l.reverse
  have hlen : ext.length + rest.length = l.length := by
    have := congrArg List.length hdecomp
    simpa using this
  have hrestne : rest ≠ [] := by
    intro h0
    rw [h0] at hlen
    simp at hlen
    omega
  obtain ⟨r0, r', hr⟩ := List.exists_cons_of_ne_nil hrestne
  have hr0 : r0 = '.' := by
    have := dropWhile_head_not notDot l.reverse r0 r' (by rw [← hrest, hr])
    simpa [notDot] using this
  have hl : l = r'.reverse ++ '.' :: ext.reverse := by
    have : l.reverse.reverse = (ext ++ r0 :: r').reverse := by
      rw [hdecomp.symm, hr]
    rw [List.reverse_reverse] at this
    rw [this, hr0]
    simp
  have hr'len : r'.length = l.length - ext.length - 1 := by
    rw [hr] at hlen
    simp at hlen
    omega
  have hstem : stemList l = r'.reverse := by
    unfold stemList
    rw [hidx, hl]
    have hlen2 : (r'.reverse ++ '.' :: ext.reverse).length - ext.length - 1 =
        r'.reverse.length := by
      simp only [List.length_append, List.length_reverse, List.length_cons]
      omega
    rw [hlen2]
    exact List.take_left _ _
  have hsufval : suffixList l = '.' :: ext.reverse := by
    unfold suffixList
    rw [hidx, hl]
    have hlen2 : (r'.reverse ++ '.' :: ext.reverse).length - ext.length - 1 =
        r'.reverse.length := by
      simp only [List.length_append, List.length_reverse, List.length_cons]
      omega
    rw [hlen2]
    exact List.drop_left _ _
  have he : e = ext.reverse := by
    rw [h] at hsufval
    exact (List.cons.injEq _ _ _ _).mp hsufval |>.2
  refine ⟨?_, ?_, ?_, ?_⟩
  · rw [hstem, he, ← hl]
  · rw [hstem]
    intro h0
    have : r'.length = 0 := by
      have := congrArg List.length h0
      simpa using this
    omega
  · intro c hc
    rw [he] at hc
    exact List.mem_takeWhile_imp (List.mem_reverse.mp hc)
  · rw [he]
    intro h0
    have : ext.length = 0 := by
      have := congrArg List.length h0
      simpa using this
    omega

/- ## Arithmetic of the PIL blend -/

theorem muldiv255_zero (a : Nat) : muldiv255 a 0 = 0 := by
  simp [muldiv255]

set_option maxRecDepth 8192 in
theorem muldiv255_255_of_le (c : Nat) (hc : c ≤ 255) : muldiv255 c 255 = c := by
  have h : ∀ x : Fin 256, muldiv255 x.val 255 = x.val := by decide
  exact h ⟨c, by omega⟩

theorem blend_mask_full (bgc c : Nat) (hc : c ≤ 255) : blend 255 bgc c = c := by
  unfold blend
  rw [Nat.sub_self, muldiv255_zero, muldiv255_255_of_le c hc, Nat.zero_add]

theorem blend_transparent (bgc c : Nat) (hbg : bgc ≤ 255) : blend 0 bgc c = bgc := by
  unfold blend
  rw [Nat.sub_zero, muldiv255_zero, muldiv255_255_of_le bgc hbg, Nat.add_zero]

theorem zip_rep_blend_full (bgc n : Nat) (band : List Nat)
    (hlen : band.length = n) (h : ∀ c ∈ band, c ≤ 255) :
    ((List.replicate n 255).zip band).map (fun q => blend q.1 bgc q.2) = band := by
  subst hlen
  induction band with
  | nil => rfl
  | cons c cs ih =>
    simp only [List.length_cons, List.replicate_succ, List.zip_cons_cons,
      List.map_cons]
    rw [blend_mask_full bgc c (h c (by simp)), ih (fun d hd => h d (by simp [hd]))]

theorem zip_rep_blend_transparent (bgc n : Nat) (band : List Nat)
    (hlen : band.length = n) (hbg : bgc ≤ 255) :
    ((List.replicate n 0).zip band).map (fun q => blend q.1 bgc q.2) =
      List.replicate n bgc := by
  subst hlen
  induction band with
  | nil => rfl
  | cons c cs ih =>
    simp only [List.length_cons, List.replicate_succ, List.zip_cons_cons,
      List.map_cons]
    rw [blend_transparent bgc c hbg, ih]

/-- C3: the flattening transform composes the decoded RGBA image over a solid
background of the given color using the own alpha band of the image as mask and
returns a three-band (alpha-free) image; with a fully opaque alpha band the
RGB bands are returned unchanged for every background color, and with a fully
transparent alpha band every band is uniformly the background color. -/
theorem c3_flatten (w ht n : Nat) (r g b : List Nat) (bg : Nat × Nat × Nat)
    (hr : r.length = n) (hg : g.length = n) (hb : b.length = n)
    (hr255 : ∀ c ∈ r, c ≤ 255) (hg255 : ∀ c ∈ g, c ≤ 255)
    (hb255 : ∀ c ∈ b, c ≤ 255) :
    convert_transparency_to_color ⟨w, ht, [r, g, b, List.replicate n 255]⟩ bg =
      Except.ok ⟨w, ht, [r, g, b]⟩ ∧
    (bg.1 ≤ 255 → bg.2.1 ≤ 255 → bg.2.2 ≤ 255 →
      convert_transparency_to_color ⟨w, ht, [r, g, b, List.replicate n 0]⟩ bg =
        Except.ok ⟨w, ht, [List.replicate n bg.1, List.replicate n bg.2.1,
          List.replicate n bg.2.2]⟩) := by
  constructor
  · have hred : convert_transparency_to_color
        ⟨w, ht, [r, g, b, List.replicate n 255]⟩ bg =
        Except.ok ⟨w, ht,
          [((List.replicate n 255).zip r).map (fun q => blend q.1 bg.1 q.2),
           ((List.replicate n 255).zip g).map (fun q => blend q.1 bg.2.1 q.2),
           ((List.replicate n 255).zip b).map (fun q => blend q.1 bg.2.2 q.2)]⟩ :=
      rfl
    rw [hred, zip_rep_blend_full bg.1 n r hr hr255,
      zip_rep_blend_full bg.2.1 n g hg hg255,
      zip_rep_blend_full bg.2.2 n b hb hb255]
  · intro h1 h2 h3
    have hred : convert_transparency_to_color
        ⟨w, ht, [r, g, b, List.replicate n 0]⟩ bg =
        Except.ok ⟨w, ht,
          [((List.replicate n 0).zip r).map (fun q => blend q.1 bg.1 q.2),
           ((List.replicate n 0).zip g).map (fun q => blend q.1 bg.2.1 q.2),
           ((List.replicate n 0).zip b).map (fun q => blend q.1 bg.2.2 q.2)]⟩ :=
      rfl
    rw [hred, zip_rep_blend_transparent bg.1 n r hr h1,
      zip_rep_blend_transparent bg.2.1 n g hg h2,
      zip_rep_blend_transparent bg.2.2 n b hb h3]

/-- Witness for C3 at a concrete 2-pixel image and background (1, 2, 3). -/
theorem c3_flatten_witness :
    convert_transparency_to_color
      ⟨2, 1, [[10, 11], [20, 21], [30, 31], List.replicate 2 255]⟩ (1, 2, 3) =
      Except.ok ⟨2, 1, [[10, 11], [20, 21], [30, 31]]⟩ ∧
    convert_transparency_to_color
      ⟨2, 1, [[10, 11], [20, 21], [30, 31], List.replicate 2 0]⟩ (1, 2, 3) =
      Except.ok ⟨2, 1, [List.replicate 2 1, List.replicate 2 2,
        List.replicate 2 3]⟩ := by
  have h := c3_flatten 2 1 2 [10, 11] [20, 21] [30, 31] (1, 2, 3) rfl rfl rfl
    (by decide) (by decide) (by decide)
  exact ⟨h.1, h.2 (by decide) (by decide) (by decide)⟩

/-- C10: the flattening function unconditionally indexes the fourth band as
mask, so with fewer than four bands it raises (modelled as an error) rather
than returning an image — inside the batch this is that single item failing
(`([], result ≠ 0)`) — while any image with at least four bands flattens to
some image. -/
theorem c10_alpha_band_required (img : PILImage) (bg : Nat × Nat × Nat)
    (it : SourceItem) (image_suffix : String)
    (hb : img.bands.length < 4) (hit : it.svgRender = some img) :
    convert_transparency_to_color img bg =
      Except.error "tuple index out of range" ∧
    convertItem "svg" image_suffix bg it = ([], false) ∧
    ∀ img2 : PILImage, 4 ≤ img2.bands.length →
      ∃ out, convert_transparency_to_color img2 bg = Except.ok out := by
  have h3 : img.bands[3]? = none := List.getElem?_eq_none (by omega)
  have herr : convert_transparency_to_color img bg =
      Except.error "tuple index out of range" := by
    unfold convert_transparency_to_color
    rw [h3]
  refine ⟨herr, ?_, ?_⟩
  · simp [convertItem, hit, herr]
  · intro img2 h4
    have hlt : 3 < img2.bands.length := by omega
    have h3' := List.getElem?_eq_getElem hlt
    unfold convert_transparency_to_color
    rw [h3']
    exact ⟨_, rfl⟩

/-- Witness for C10 at a concrete three-band (RGB) image. -/
theorem c10_alpha_band_required_witness :
    convert_transparency_to_color ⟨1, 1, [[5], [6], [7]]⟩ (255, 255, 255) =
      Except.error "tuple index out of range" ∧
    convertItem "svg" "png" (255, 255, 255)
      ⟨"x.svg", some ⟨1, 1, [[5], [6], [7]]⟩, 0⟩ = ([], false) := by
  have h := c10_alpha_band_required ⟨1, 1, [[5], [6], [7]]⟩ (255, 255, 255)
    ⟨"x.svg", some ⟨1, 1, [[5], [6], [7]]⟩, 0⟩ "png" (by decide) rfl
  exact ⟨h.1, h.2.1⟩

/- ## Batch behaviour of stage 1 -/

theorem convertItem_arts (source_suffix image_suffix : String)
    (bg : Nat × Nat × Nat) (it : SourceItem)
    (hsv : source_suffix = "svg" ∨ source_suffix = "swf") :
    (convertItem source_suffix image_suffix bg it).1 =
      if (convertItem source_suffix image_suffix bg it).2 then
        [outputName it.name image_suffix]
      else [] := by
  rcases hsv with rfl | rfl
  · unfold convertItem
    cases hsvg : it.svgRender with
    | none => simp [hsvg]
    | some img =>
      cases hconv : convert_transparency_to_color img bg with
      | error e => simp [hsvg, hconv]
      | ok out => simp [hsvg, hconv]
  · unfold convertItem
    by_cases hz : it.swfExit = 0 <;> simp [hz]

theorem runBatch_arts (source_suffix image_suffix : String)
    (bg : Nat × Nat × Nat) (total : Nat)
    (hsv : source_suffix = "svg" ∨ source_suffix = "swf") :
    ∀ (l : List SourceItem) (c : Nat),
      (runBatch source_suffix image_suffix bg total c l).1 =
        (l.filter (fun it => (convertItem source_suffix image_suffix bg it).2)).map
          (fun it => outputName it.name image_suffix) := by
  intro l
  induction l with
  | nil => intro c; rfl
  | cons it rest ih =>
    intro c
    rw [runBatch]
    simp only [List.filter_cons]
    by_cases hok : (convertItem source_suffix image_suffix bg it).2 = true
    · rw [if_pos hok, List.map_cons, ← ih (c + 1)]
      have := convertItem_arts source_suffix image_suffix bg it hsv
      rw [if_pos hok] at this
      simp [this]
    · rw [if_neg hok, ← ih (c + 1)]
      have := convertItem_arts source_suffix image_suffix bg it hsv
      rw [if_neg hok] at this
      simp [this]

/-- C6: a conversion failure of a single item does not abort the batch: the
failing item is logged with a failure line and every other item still
produces its artifact. With five collected inputs of which the third fails,
the artifacts are exactly those of items 1, 2, 4, 5 and the log holds five
lines of which exactly the third is a failure line. -/
theorem c6_batch_resilience (image_suffix src : String) (bg : Nat × Nat × Nat)
    (files : List SourceItem) (i1 i2 i3 i4 i5 : SourceItem)
    (hcol : collectSources src files = [i1, i2, i3, i4, i5])
    (h1 : convertItem src image_suffix bg i1 =
      ([outputName i1.name image_suffix], true))
    (h2 : convertItem src image_suffix bg i2 =
      ([outputName i2.name image_suffix], true))
    (h3 : convertItem src image_suffix bg i3 = ([], false))
    (h4 : convertItem src image_suffix bg i4 =
      ([outputName i4.name image_suffix], true))
    (h5 : convertItem src image_suffix bg i5 =
      ([outputName i5.name image_suffix], true)) :
    raw_to_images image_suffix src bg files =
      ([outputName i1.name image_suffix, outputName i2.name image_suffix,
        outputName i4.name image_suffix, outputName i5.name image_suffix],
       [⟨5, 1, outputName i1.name image_suffix, true⟩,
        ⟨5, 2, outputName i2.name image_suffix, true⟩,
        ⟨5, 3, outputName i3.name image_suffix, false⟩,
        ⟨5, 4, outputName i4.name image_suffix, true⟩,
        ⟨5, 5, outputName i5.name image_suffix, true⟩], []) := by
  unfold raw_to_images
  rw [hcol]
  simp [runBatch, h1, h2, h3, h4, h5]

/-- Witness for C6: five svg files collected in sorted order; rendering of
the third one raises, the others render a 1-pixel RGBA image. -/
theorem c6_batch_resilience_witness :
    raw_to_images "png" "svg" (255, 255, 255)
      [⟨"f1.svg", some ⟨1, 1, [[0], [0], [0], [255]]⟩, 0⟩,
       ⟨"f2.svg", some ⟨1, 1, [[0], [0], [0], [255]]⟩, 0⟩,
       ⟨"f3.svg", none, 0⟩,
       ⟨"f4.svg", some ⟨1, 1, [[0], [0], [0], [255]]⟩, 0⟩,
       ⟨"f5.svg", some ⟨1, 1, [[0], [0], [0], [255]]⟩, 0⟩] =
      (["f1.png", "f2.png", "f4.png", "f5.png"],
       [⟨5, 1, "f1.png", true⟩, ⟨5, 2, "f2.png", true⟩, ⟨5, 3, "f3.png", false⟩,
        ⟨5, 4, "f4.png", true⟩, ⟨5, 5, "f5.png", true⟩], []) := by
  have h := c6_batch_resilience "png" "svg" (255, 255, 255)
    [⟨"f1.svg", some ⟨1, 1, [[0], [0], [0], [255]]⟩, 0⟩,
     ⟨"f2.svg", some ⟨1, 1, [[0], [0], [0], [255]]⟩, 0⟩,
     ⟨"f3.svg", none, 0⟩,
     ⟨"f4.svg", some ⟨1, 1, [[0], [0], [0], [255]]⟩, 0⟩,
     ⟨"f5.svg", some ⟨1, 1, [[0], [0], [0], [255]]⟩, 0⟩]
    ⟨"f1.svg", some ⟨1, 1, [[0], [0], [0], [255]]⟩, 0⟩
    ⟨"f2.svg", some ⟨1, 1, [[0], [0], [0], [255]]⟩, 0⟩
    ⟨"f3.svg", none, 0⟩
    ⟨"f4.svg", some ⟨1, 1, [[0], [0], [0], [255]]⟩, 0⟩
    ⟨"f5.svg", some ⟨1, 1, [[0], [0], [0], [255]]⟩, 0⟩
    (by decide) (by decide) (by decide) (by decide) (by decide) (by decide)
  exact h

theorem mem_collectSources (src : String) (files : List SourceItem)
    (it : SourceItem) (hit : it ∈ collectSources src files) :
    suffixStr it.name = "." ++ src := by
  unfold collectSources sortByName at hit
  have hmem := (perm_insertionSortB _ _).mem_iff.mp hit
  have := (List.mem_filter.mp hmem).2
  exact of_decide_eq_true this

/-- C7: for every collected source, the artifact path derived by the stage-1
loop has the same stem as the source and the configured image extension; the
artifact list is exactly one artifact per successful conversion, in order,
with nothing for sources that were not attempted. -/
theorem c7_artifact_pairing (image_suffix src : String) (bg : Nat × Nat × Nat)
    (files : List SourceItem)
    (hsv : src = "svg" ∨ src = "swf")
    (hisuf : image_suffix.data ≠ [])
    (hidot : ∀ c ∈ image_suffix.data, notDot c = true) :
    (raw_to_images image_suffix src bg files).1 =
      ((collectSources src files).filter
        (fun it => (convertItem src image_suffix bg it).2)).map
        (fun it => outputName it.name image_suffix) ∧
    ∀ it ∈ collectSources src files,
      stemStr (outputName it.name image_suffix) = stemStr it.name ∧
      suffixStr (outputName it.name image_suffix) = "." ++ image_suffix := by
  constructor
  · unfold raw_to_images
    by_cases hlen : (collectSources src files).length ≠ 0
    · rw [if_pos hlen]
      exact runBatch_arts src image_suffix bg _ hsv _ 1
    · rw [if_neg hlen]
      simp only [ne_eq, not_not] at hlen
      rw [List.length_eq_zero.mp hlen]
      rfl
  · intro it hit
    have hsufx := mem_collectSources src files it hit
    have hdata : suffixList it.name.data = '.' :: src.data := by
      have := congrArg String.data hsufx
      rw [String.data_append] at this
      exact this
    obtain ⟨happ, hstemne, hdotfree, hsrcne⟩ :=
      suffix_structure it.name.data src.data hdata
    have hsrclen : src.data.length = 3 := by
      rcases hsv with rfl | rfl <;> rfl
    set st := stemList it.name.data with hst
    have htake : it.name.data.take (it.name.data.length - 3) = st ++ ['.'] := by
      rw [← happ, List.take_append_eq_append_take]
      have hn : (st ++ '.' :: src.data).length - 3 = st.length + 1 := by
        simp only [List.length_append, List.length_cons, hsrclen]
        omega
      rw [hn, List.take_of_length_le (by omega)]
      congr 1
      have h1 : st.length + 1 - st.length = 1 := by omega
      rw [h1]
      rfl
    have hout : (outputName it.name image_suffix).data =
        st ++ '.' :: image_suffix.data := by
      unfold outputName
      rw [String.data_append]
      show it.name.data.take (it.name.data.length - 3) ++ image_suffix.data =
        st ++ '.' :: image_suffix.data
      rw [htake]
      simp
    obtain ⟨hos, hosuf⟩ := stem_suffix_append st image_suffix.data
      hstemne hisuf hidot
    constructor
    · apply String.ext
      show stemList (outputName it.name image_suffix).data = st
      rw [hout]
      exact hos
    · apply String.ext
      show suffixList (outputName it.name image_suffix).data =
        ("." ++ image_suffix).data
      rw [hout, hosuf, String.data_append]
      rfl

/-- Witness for C7 at one concrete svg source file. -/
theorem c7_artifact_pairing_witness :
    (raw_to_images "png" "svg" (255, 255, 255) [⟨"doc.svg", none, 0⟩]).1 =
      ((collectSources "svg" [⟨"doc.svg", none, 0⟩]).filter
        (fun it => (convertItem "svg" "png" (255, 255, 255) it).2)).map
        (fun it => outputName it.name "png") ∧
    ∀ it ∈ collectSources "svg" [⟨"doc.svg", none, 0⟩],
      stemStr (outputName it.name "png") = stemStr it.name ∧
      suffixStr (outputName it.name "png") = "." ++ "png" :=
  c7_artifact_pairing "png" "svg" (255, 255, 255) [⟨"doc.svg", none, 0⟩]
    (Or.inl rfl) (by decide) (by decide)

/-- C8: with zero matching files, stage 1 prints the "no files" notice and
writes no artifact, stage 2 prints the "no images" notice and yields a null
document, and exporting the null document writes nothing. -/
theorem c8_empty_directory (image_suffix src : String) (bg : Nat × Nat × Nat)
    (x y : Int) (sfiles : List SourceItem) (ifiles : List ImageFile)
    (cwd : String)
    (hs : collectSources src sfiles = [])
    (hi : collectImages image_suffix ifiles = []) :
    raw_to_images image_suffix src bg sfiles =
      ([], [], ["No " ++ src ++ " files were found."]) ∧
    images_to_pdf image_suffix x y ifiles = (none, ["No images were found."]) ∧
    pdf_export_to_disk (images_to_pdf image_suffix x y ifiles).1 cwd = [] := by
  have h2 : images_to_pdf image_suffix x y ifiles =
      (none, ["No images were found."]) := by
    unfold images_to_pdf
    rw [hi]
    rfl
  refine ⟨?_, h2, ?_⟩
  · unfold raw_to_images
    rw [hs]
    rfl
  · rw [congrArg Prod.fst h2]
    rfl

/-- Witness for C8: a directory holding only an unrelated `.txt` file. -/
theorem c8_empty_directory_witness :
    raw_to_images "png" "svg" (255, 255, 255) [⟨"notes.txt", none, 0⟩] =
      ([], [], ["No " ++ "svg" ++ " files were found."]) ∧
    images_to_pdf "png" 2480 3508 [⟨"notes.txt", 9, 9⟩] =
      (none, ["No images were found."]) ∧
    pdf_export_to_disk (images_to_pdf "png" 2480 3508 [⟨"notes.txt", 9, 9⟩]).1
      "book" = [] :=
  c8_empty_directory "png" "svg" (255, 255, 255) 2480 3508
    [⟨"notes.txt", none, 0⟩] [⟨"notes.txt", 9, 9⟩] "book" (by decide) (by decide)

/-- C2 counterexample: the claim "the page size equals the pixel size of the image
even when it differs from the configured size" is false — collecting a
100 × 100 image with configured size 200 × 300 yields a page of size
200 × 300, not 100 × 100. -/
theorem c2_page_size_counterexample :
    ((images_to_pdf "png" 200 300 [⟨"a.png", 100, 100⟩]).1.map
      (fun d => d.pages.map (fun p => (p.pageW, (p.img.pixelW : Int))))) =
      some [((200 : Int), (100 : Int))] ∧
    (200 : Int) ≠ (100 : Int) := by
  constructor
  · rfl
  · decide

/-- C2 (amended): every page of the generated document has the configured
format `[x_size, y_size]` — not the pixel size of the image — and the image is
placed at the origin (0, 0) and drawn at its native pixel size (one point per
pixel); consequently the page size equals the pixel size of the raster exactly
when the raster was produced at the configured size. -/
theorem c2_page_format (image_suffix : String) (x y : Int)
    (files : List ImageFile) (pdf : Pdf)
    (hpdf : (images_to_pdf image_suffix x y files).1 = some pdf) :
    pdf.formatW = x ∧ pdf.formatH = y ∧
    ∀ p ∈ pdf.pages, p.pageW = x ∧ p.pageH = y ∧ p.posX = 0 ∧ p.posY = 0 ∧
      p.drawW = p.img.pixelW ∧ p.drawH = p.img.pixelH ∧
      (((p.img.pixelW : Int), (p.img.pixelH : Int)) = (x, y) →
        p.pageW = (p.img.pixelW : Int) ∧ p.pageH = (p.img.pixelH : Int)) := by
  unfold images_to_pdf at hpdf
  by_cases hlen : (collectImages image_suffix files).length ≠ 0
  · rw [if_pos hlen] at hpdf
    simp only [Option.some.injEq] at hpdf
    subst hpdf
    refine ⟨rfl, rfl, ?_⟩
    intro p hp
    simp only [List.mem_map] at hp
    obtain ⟨im, -, hpim⟩ := hp
    subst hpim
    refine ⟨rfl, rfl, rfl, rfl, rfl, rfl, ?_⟩
    intro hmatch
    rw [Prod.mk.injEq] at hmatch
    exact ⟨hmatch.1.symm, hmatch.2.symm⟩
  · rw [if_neg hlen] at hpdf
    cases hpdf

/-- Witness for C2 at one concrete image matching the configured size. -/
theorem c2_page_format_witness :
    (Pdf.mk 5 7 [⟨5, 7, ⟨"a.png", 5, 7⟩, 0, 0, 5, 7⟩]).formatW = 5 ∧
    (Pdf.mk 5 7 [⟨5, 7, ⟨"a.png", 5, 7⟩, 0, 0, 5, 7⟩]).formatH = 7 ∧
    ∀ p ∈ (Pdf.mk 5 7 [⟨5, 7, ⟨"a.png", 5, 7⟩, 0, 0, 5, 7⟩]).pages,
      p.pageW = 5 ∧ p.pageH = 7 ∧ p.posX = 0 ∧ p.posY = 0 ∧
      p.drawW = p.img.pixelW ∧ p.drawH = p.img.pixelH ∧
      (((p.img.pixelW : Int), (p.img.pixelH : Int)) = (5, 7) →
        p.pageW = (p.img.pixelW : Int) ∧ p.pageH = (p.img.pixelH : Int)) :=
  c2_page_format "png" 5 7 [⟨"a.png", 5, 7⟩]
    (Pdf.mk 5 7 [⟨5, 7, ⟨"a.png", 5, 7⟩, 0, 0, 5, 7⟩]) (by decide)

/-- C4: mode 1 runs only image generation; mode 2 runs only the compositor
and then exports exactly when the document is non-null; mode 3 and an
unspecified mode run image generation first, then the compositor and the
conditional export, in that order. -/
theorem c4_mode_dispatch :
    (∀ b : Bool, process_with_args_trace (some 1) b = [PipelineStep.genImages]) ∧
    process_with_args_trace (some 2) true =
      [PipelineStep.buildPdf, PipelineStep.exportPdf] ∧
    process_with_args_trace (some 2) false = [PipelineStep.buildPdf] ∧
    (∀ b : Bool, process_with_args_trace (some 3) b =
      PipelineStep.genImages :: PipelineStep.buildPdf ::
        (if b then [PipelineStep.exportPdf] else [])) ∧
    (∀ b : Bool, process_with_args_trace none b =
      PipelineStep.genImages :: PipelineStep.buildPdf ::
        (if b then [PipelineStep.exportPdf] else [])) := by
  refine ⟨?_, rfl, rfl, ?_, ?_⟩ <;> intro b <;> cases b <;> rfl

/-- C5 counterexample: mode 0 is not silently ignored — `if args.mode:` is
false for 0, so the controller takes the default branch and runs both stages
(and the export), exactly as if no mode had been given. -/
theorem c5_mode_zero_counterexample :
    process_with_args_trace (some 0) true =
      [PipelineStep.genImages, PipelineStep.buildPdf, PipelineStep.exportPdf] ∧
    process_with_args_trace (some 0) true ≠ [] := by
  exact ⟨rfl, by decide⟩

/-- C5 (amended): every mode value outside {0, 1, 2, 3} makes the controller
silently perform no action (no stage runs, nothing is exported, no warning);
mode 0, however, is falsy in Python and behaves like an unspecified mode,
running both stages. -/
theorem c5_unknown_mode_noop (m : Int) (b : Bool)
    (h0 : m ≠ 0) (h1 : m ≠ 1) (h2 : m ≠ 2) (h3 : m ≠ 3) :
    process_with_args_trace (some m) b = [] := by
  unfold process_with_args_trace modeTruthy
  rw [if_pos (by simpa using h0)]
  rw [if_neg (by simpa using h1), if_neg (by simpa using h2),
    if_neg (by simpa using h3)]

/-- Witness for C5 (amended) at mode 4. -/
theorem c5_unknown_mode_noop_witness :
    process_with_args_trace (some 4) true = [] :=
  c5_unknown_mode_noop 4 true (by decide) (by decide) (by decide) (by decide)

/-- C9: with no `--background_color` the flattening step receives the integer
default (255, 255, 255); but a supplied dot-separated value is only split
into a tuple of strings — `("255", "255", "255")`, not integers — which is
not the integer triple the flattening step consumes. -/
theorem c9_background_color_resolution :
    resolveBackgroundColor (some "255.255.255") (255, 255, 255) =
      Sum.inl ["255", "255", "255"] ∧
    resolveBackgroundColor none (255, 255, 255) =
      Sum.inr (255, 255, 255) := by
  exact ⟨by decide, rfl⟩
